import Mathlib

/-!
Verification of the identity-resolution and provisioning engine of
django-mellon (`mellon/adapters.py`, class `DefaultAdapter`).

The Python code is shallowly embedded: the persistent store (users, identity
links, groups, group-membership rows) becomes an explicit `State` record, the
per-IdP settings snapshot becomes a `Config` record, and each adapter method
becomes a pure Lean function threading the state.  Values held in a SAML
attribute bag are either plain strings or lists of strings, exactly as in the
Python dict, so truthiness and single-value extraction can be modelled
faithfully.
-/

namespace Mellon

/-- The SAML 2.0 transient name-identifier format URI,
`lasso.SAML2_NAME_IDENTIFIER_FORMAT_TRANSIENT`. -/
def SAML2_NAME_IDENTIFIER_FORMAT_TRANSIENT : String :=
  "urn:oasis:names:tc:SAML:2.0:nameid-format:transient"

/-- A value stored in the SAML attribute dict: either a Python string or a
list of strings (multi-valued attribute). -/
inductive AttrVal where
  | str (s : String)
  | list (l : List String)
deriving DecidableEq, Repr

namespace AttrVal

/-- Python truthiness of an attribute value: a string is truthy iff non-empty,
a list iff non-empty. -/
def truthy : AttrVal → Bool
  | .str s => !s.isEmpty
  | .list l => !l.isEmpty

/-- The wrapping performed by `if not isinstance(v, (tuple, list)): v = [v]`:
a plain string becomes a one-element list. -/
def toList : AttrVal → List String
  | .str s => [s]
  | .list l => l

/-- Python iteration `for value in values`: iterating a list yields its
elements; iterating a string yields its characters as one-character strings. -/
def iter : AttrVal → List String
  | .str s => s.toList.map (fun c => String.mk [c])
  | .list l => l

end AttrVal

/-- The validated attribute bag produced by the protocol layer: reserved keys
plus the free-form (multi-valued) SAML attributes, in dict order. -/
structure SamlAttributes where
  name_id_format : String
  name_id_content : String
  issuer : String
  /-- `authn_context_class_ref`; `none` models the Python value `None`. -/
  authn_context_class_ref : Option String
  /-- the remaining entries of the `saml_attributes` dict -/
  attrs : List (String × AttrVal)
deriving DecidableEq, Repr

namespace SamlAttributes

/-- `saml_attributes.get(k)` restricted to the free-form attribute entries. -/
def get (sa : SamlAttributes) (k : String) : Option AttrVal :=
  (sa.attrs.find? (fun p => p.1 == k)).map (fun p => p.2)

/-- Full dict lookup `saml_attributes[k]`, including the reserved string-valued
keys.  An `authn_context_class_ref` of `None` is treated as an absent entry
(it can never contribute a string value). -/
def dictGet (sa : SamlAttributes) (k : String) : Option AttrVal :=
  if k == "name_id_format" then some (.str sa.name_id_format)
  else if k == "name_id_content" then some (.str sa.name_id_content)
  else if k == "issuer" then some (.str sa.issuer)
  else if k == "authn_context_class_ref" then
    sa.authn_context_class_ref.map .str
  else sa.get k

end SamlAttributes

/-- One entry of the `LOOKUP_BY_ATTRIBUTES` setting, a Python dict with keys
`user_field`, `saml_attribute` and optional `ignore-case`.  Missing keys are
modelled as `none` (the code logs and skips such an entry). -/
structure LookupRule where
  user_field : Option String
  saml_attribute : Option String
  ignore_case : Bool
deriving DecidableEq, Repr

/-- A token of a `USERNAME_TEMPLATE` format string: a literal piece, or one of
the substitutions `\x7brealm\x7d`, `\x7battributes[name]\x7d`,
`\x7battributes[name][i]\x7d`, `\x7bidp[ENTITY_ID]\x7d` used by the shipped
templates.  This models the fragment of Python's `str.format` language the
code renders through. -/
inductive TmplTok where
  | lit (s : String)
  | realm
  | attr (name : String)
  | attrIdx (name : String) (i : Nat)
  | idpEntityId
deriving DecidableEq, Repr

/-- The resolved per-IdP settings snapshot: every value `utils.get_setting(idp, NAME)`
can return during one resolution (per-IdP with global fallback). -/
structure Config where
  /-- `TRANSIENT_FEDERATION_ATTRIBUTE`; `none` models unset/`None`. -/
  TRANSIENT_FEDERATION_ATTRIBUTE : Option String
  /-- `LOOKUP_BY_ATTRIBUTES`: the empty list models an unset (falsy) value. -/
  LOOKUP_BY_ATTRIBUTES : List LookupRule
  PROVISION : Bool
  /-- `AUTHN_CLASSREF`: the empty list models an unset (falsy) value. -/
  AUTHN_CLASSREF : List String
  USERNAME_TEMPLATE : List TmplTok
  REALM : String
  ENTITY_ID : String
  /-- `SUPERUSER_MAPPING` as an association list in dict iteration order;
  the empty list models an unset (falsy) value. -/
  SUPERUSER_MAPPING : List (String × AttrVal)
  GROUP_ATTRIBUTE : String
  CREATE_GROUP : Bool
deriving DecidableEq, Repr

/-- A row of the Django `User` model, restricted to the fields the adapter
reads or writes. -/
structure User where
  id : Nat
  username : String
  email : String
  first_name : String
  last_name : String
  is_staff : Bool
  is_superuser : Bool
deriving DecidableEq, Repr

/-- The string-valued user fields `User._meta.get_field` recognises in this
model (used to validate a `LOOKUP_BY_ATTRIBUTES` rule). -/
def userStringFields : List String := ["username", "email", "first_name", "last_name"]

/-- Field access `getattr(user, field)` for the modelled string fields. -/
def User.getField (u : User) : String → Option String
  | "username" => some u.username
  | "email" => some u.email
  | "first_name" => some u.first_name
  | "last_name" => some u.last_name
  | _ => none

/-- A row of the `UserSAMLIdentifier` table.  Modelled from the spec: the
model class itself is not part of the sources at hand; §3 specifies the table
as a mapping `(issuer, name_id) → user_id` unique on `(issuer, name_id)`. -/
structure Link where
  issuer : String
  name_id : String
  user_id : Nat
deriving DecidableEq, Repr

/-- A row of the Django `Group` model. -/
structure Group where
  id : Nat
  name : String
deriving DecidableEq, Repr

/-- The persistent store visible to the adapter: users, identity links,
groups, and the `User.groups.through` rows `(group_id, user_id)`.  The
`next_user_id`/`next_group_id` counters model the auto-increment primary
keys. -/
structure State where
  users : List User
  links : List Link
  groups : List Group
  memberships : List (Nat × Nat)
  next_user_id : Nat
  next_group_id : Nat
deriving DecidableEq, Repr

/-- `DefaultAdapter.authorize` (adapters.py lines 101-110).  The result
models the Python control flow exactly: `Except.error ()` is a raised
`PermissionDenied`, `Except.ok b` a normal return of `b`.  The `idp` argument
is `none` when the Python `idp` dict is falsy (absent). -/
def authorize (idp : Option Config) (sa : SamlAttributes) : Except Unit Bool :=
  match idp with
  | none => .ok false
  | some cfg =>
    if !cfg.AUTHN_CLASSREF.isEmpty then
      match sa.authn_context_class_ref with
      | none => .error ()
      | some given =>
        if cfg.AUTHN_CLASSREF.contains given then .ok true else .error ()
    else .ok true

/-- Name-identifier derivation, the head of `DefaultAdapter.lookup_user`
(adapters.py lines 140-155).  Returns the linking key, or `none` when the
code returns `None` (transient format without a usable federation
attribute). -/
def deriveNameId (cfg : Config) (sa : SamlAttributes) : Option String :=
  if sa.name_id_format == SAML2_NAME_IDENTIFIER_FORMAT_TRANSIENT then
    match cfg.TRANSIENT_FEDERATION_ATTRIBUTE with
    | none => none
    | some tfa =>
      if tfa.isEmpty then none
      else
        match sa.get tfa with
        | none => none
        | some v =>
          if v.truthy then
            match v with
            | .str s => some s
            | .list l => if l.length == 1 then l.head? else none
          else none
  else some sa.name_id_content

/-- Whether some identity link designates the user (Django filter
`saml_identifiers__isnull=False` for this user). -/
def hasLink (st : State) (uid : Nat) : Bool :=
  st.links.any (fun l => l.user_id == uid)

/-- The direct-link lookup of adapters.py lines 157-165:
`User.objects.get(saml_identifiers__name_id=name_id, saml_identifiers__issuer=issuer)`,
with `User.DoesNotExist` (no such link, or a dangling link whose user row is
gone) mapped to `none`. -/
def findLinkedUser (st : State) (issuer name_id : String) : Option User :=
  match st.links.find? (fun l => l.issuer == issuer && l.name_id == name_id) with
  | none => none
  | some l => st.users.find? (fun u => u.id == l.user_id)

/-- Whether a user field value matches a looked-up value, honouring the
`ignore-case` (`__iexact`) option of the rule. -/
def fieldMatches (fieldVal value : String) (ignore_case : Bool) : Bool :=
  if ignore_case then fieldVal.toLower == value.toLower
  else fieldVal == value

/-- The users one `LOOKUP_BY_ATTRIBUTES` rule contributes (adapters.py lines
204-240): an invalid rule (missing `user_field`, unknown field, missing
`saml_attribute`) or an empty attribute value is skipped; otherwise every
value of the attribute is matched against the field, restricted to users with
no identity link (`saml_identifiers__isnull=True`). -/
def matchRule (st : State) (sa : SamlAttributes) (rule : LookupRule) : List User :=
  match rule.user_field with
  | none => []
  | some uf =>
    if userStringFields.contains uf then
      match rule.saml_attribute with
      | none => []
      | some attr =>
        match sa.get attr with
        | none => []
        | some v =>
          if v.truthy then
            v.iter.flatMap (fun value =>
              st.users.filter (fun u =>
                !hasLink st u.id &&
                  match u.getField uf with
                  | some fv => fieldMatches fv value rule.ignore_case
                  | none => false))
          else []
    else []

/-- The candidate set `users` accumulated by `_lookup_by_attributes`: the
union (a Python `set`, hence deduplicated) of the matches of every rule. -/
def candidateSet (st : State) (sa : SamlAttributes) (rules : List LookupRule) : List User :=
  (rules.flatMap (matchRule st sa)).dedup

/-- `DefaultAdapter._lookup_by_attributes` (adapters.py lines 198-249):
exactly one candidate is returned, zero or several yield `None`. -/
def lookupByAttributes (st : State) (sa : SamlAttributes) (rules : List LookupRule) :
    Option User :=
  let users := candidateSet st sa rules
  if users.length == 1 then users.head? else none

/-- Placeholder username given to a just-created user.  Models
`uuid.uuid4().hex[:30]`: a fresh random token, represented here as a function
of the fresh primary key. -/
def uuidPlaceholder (n : Nat) : String := "uuid-placeholder-" ++ toString n

/-- `DefaultAdapter.create_user` (adapters.py lines 128-129):
`User.objects.create(username=uuid4().hex[:30])` with the auto-increment
primary key and Django's defaults for the other fields. -/
def create_user (st : State) : User × State :=
  let u : User :=
    { id := st.next_user_id, username := uuidPlaceholder st.next_user_id,
      email := "", first_name := "", last_name := "",
      is_staff := false, is_superuser := false }
  (u, { st with users := st.users ++ [u], next_user_id := st.next_user_id + 1 })

/-- `user.delete()`: removes the user row; the cascade also removes the
identity links and group-membership rows referencing it (Django foreign keys
cascade on delete; the spec requires link and user deletion to stay
consistent). -/
def deleteUser (st : State) (uid : Nat) : State :=
  { st with
    users := st.users.filter (fun u => u.id != uid),
    links := st.links.filter (fun l => l.user_id != uid),
    memberships := st.memberships.filter (fun r => r.2 != uid) }

/-- Python `str` of an attribute value, as interpolated by `str.format`. -/
def pyStr : AttrVal → String
  | .str s => s
  | .list l =>
    "[" ++ String.intercalate ", " (l.map (fun x => "'" ++ x ++ "'")) ++ "]"

/-- Rendering of one template token against `(realm, attributes, idp)`;
`none` models the `KeyError`/`IndexError` the code catches (a missing
attribute or out-of-range index). -/
def renderTok (cfg : Config) (sa : SamlAttributes) : TmplTok → Option String
  | .lit s => some s
  | .realm => some cfg.REALM
  | .attr n => (sa.dictGet n).map pyStr
  | .attrIdx n i =>
    (sa.dictGet n).bind (fun v =>
      match v with
      | .str s => (s.toList.get? i).map (fun c => String.mk [c])
      | .list l => l.get? i)
  | .idpEntityId => some cfg.ENTITY_ID

/-- `DefaultAdapter.format_username` (adapters.py lines 112-126): render the
template, truncate to 30 characters; any rendering error yields `None`. -/
def format_username (cfg : Config) (sa : SamlAttributes) : Option String :=
  (cfg.USERNAME_TEMPLATE.mapM (renderTok cfg sa)).map
    (fun parts => (String.join parts).take 30)

/-- Update the username of the user row with the given id. -/
def setUsername (st : State) (uid : Nat) (name : String) : State :=
  { st with
    users := st.users.map (fun u =>
      if u.id == uid then { u with username := name } else u) }

/-- `DefaultAdapter.finish_create_user` (adapters.py lines 131-137): derive
the real username and save it; `none` models the raised `UserCreationError`
when no (non-empty) username could be built. -/
def finish_create_user (cfg : Config) (sa : SamlAttributes) (uid : Nat)
    (st : State) : Option State :=
  match format_username cfg sa with
  | none => none
  | some username =>
    if username.isEmpty then none
    else some (setUsername st uid username)

/-- `DefaultAdapter._link_user` (adapters.py lines 251-257), returning the id
of the user the link designates and the `created` flag.  The insert-if-absent
`UserSAMLIdentifier.objects.get_or_create(name_id=…, issuer=…, defaults=…)`
is modelled from the spec: §6 specifies the linking store's single primitive
as an atomic `insert_if_absent(issuer, name_id, user) → (link, created)`. -/
def link_user (issuer name_id : String) (u : User) (st : State) :
    (Nat × Bool) × State :=
  match st.links.find? (fun l => l.name_id == name_id && l.issuer == issuer) with
  | some l => ((l.user_id, false), st)
  | none =>
    ((u.id, true),
     { st with links := st.links ++ [{ issuer := issuer, name_id := name_id, user_id := u.id }] })

/-- The tail of `DefaultAdapter.lookup_user` (adapters.py lines 180-196):
establish the identity link, handle a lost race against an existing link
(adopt its user, delete the speculative one), and finalise a newly created
user's username (deleting the user when that fails). -/
def resolveLink (cfg : Config) (sa : SamlAttributes) (issuer name_id : String)
    (user : User) (created : Bool) (st : State) : Option User × State :=
  let ((nameid_uid, _linkCreated), st1) := link_user issuer name_id user st
  if user.id != nameid_uid then
    let nameid_user := st1.users.find? (fun x => x.id == nameid_uid)
    let st2 := if created then deleteUser st1 user.id else st1
    (nameid_user, st2)
  else
    if created then
      match finish_create_user cfg sa user.id st1 with
      | none => (none, deleteUser st1 user.id)
      | some st2 => (st2.users.find? (fun x => x.id == user.id), st2)
    else (some user, st1)

/-- `DefaultAdapter.lookup_user` (adapters.py lines 139-196): derive the
linking key, return the already-linked user if any, otherwise try the
configured attribute lookup, otherwise provision (when allowed), and finish
through `resolveLink`. -/
def lookup_user (cfg : Config) (sa : SamlAttributes) (st : State) :
    Option User × State :=
  match deriveNameId cfg sa with
  | none => (none, st)
  | some name_id =>
    let issuer := sa.issuer
    match findLinkedUser st issuer name_id with
    | some u => (some u, st)
    | none =>
      let user? :=
        if cfg.LOOKUP_BY_ATTRIBUTES.isEmpty then none
        else lookupByAttributes st sa cfg.LOOKUP_BY_ATTRIBUTES
      match user? with
      | some u => resolveLink cfg sa issuer name_id u false st
      | none =>
        if !cfg.PROVISION then (none, st)
        else resolveLink cfg sa issuer name_id (create_user st).1 true (create_user st).2

/-- Whether one `SUPERUSER_MAPPING` entry matches the bag: its attribute is
present and the two value sets intersect (adapters.py lines 294-303). -/
def superuserEntryMatches (sa : SamlAttributes) (e : String × AttrVal) : Bool :=
  match sa.dictGet e.1 with
  | none => false
  | some v => e.2.toList.any (fun x => v.toList.contains x)

/-- `DefaultAdapter.provision_superuser` (adapters.py lines 289-317) as a
transformation of the user row: an unset mapping returns immediately; the
first matching entry grants both flags (the loop breaks there); the for-else
branch revokes both flags when no entry matched. -/
def provision_superuser (cfg : Config) (sa : SamlAttributes) (u : User) : User :=
  if cfg.SUPERUSER_MAPPING.isEmpty then u
  else
    match cfg.SUPERUSER_MAPPING.find? (superuserEntryMatches sa) with
    | some _ => { u with is_staff := true, is_superuser := true }
    | none => { u with is_staff := false, is_superuser := false }

/-- Resolution of claimed group names to `Group` rows (adapters.py lines
326-335): with `CREATE_GROUP`, `Group.objects.get_or_create(name=value)`;
otherwise unknown names are skipped. -/
def resolveGroups (create_group : Bool) : List String → State → List Group × State
  | [], st => ([], st)
  | v :: rest, st =>
    match st.groups.find? (fun g => g.name == v) with
    | some g =>
      let p := resolveGroups create_group rest st
      (g :: p.1, p.2)
    | none =>
      if create_group then
        let g : Group := { id := st.next_group_id, name := v }
        let st1 :=
          { st with groups := st.groups ++ [g], next_group_id := st.next_group_id + 1 }
        let p := resolveGroups create_group rest st1
        (g :: p.1, p.2)
      else resolveGroups create_group rest st

/-- `DefaultAdapter.provision_groups` (adapters.py lines 319-345): when the
bag carries the configured group attribute, resolve the (deduplicated) claimed
names to a target group set, add the missing membership rows
(`get_or_create`), and delete every membership row of the user whose group is
outside the target set.  Python iterates `set(values)`; the iteration order of
that set is unspecified, the deduplicated list order stands in for it. -/
def provision_groups (cfg : Config) (sa : SamlAttributes) (u : User)
    (st : State) : State :=
  match sa.dictGet cfg.GROUP_ATTRIBUTE with
  | none => st
  | some v =>
    let values := v.toList.dedup
    let res := resolveGroups cfg.CREATE_GROUP values st
    let st1 := res.2
    let tids := res.1.map (fun g => g.id)
    let toAdd :=
      (st1.groups.filter (fun g =>
        tids.contains g.id && !st1.memberships.contains (g.id, u.id))).map
        (fun g => (g.id, u.id))
    let mem1 := st1.memberships ++ toAdd
    let mem2 := mem1.filter (fun r => !(r.2 == u.id && !tids.contains r.1))
    { st1 with memberships := mem2 }

/-- Well-formedness of the store, as the database schema guarantees it:
distinct user primary keys below the auto-increment counter, the unique
constraint on `(issuer, name_id)` of the linking table, every link's foreign
key resolving to an existing user. -/
def State.Wf (st : State) : Prop :=
  (st.users.map (fun u => u.id)).Nodup ∧
  (∀ u ∈ st.users, u.id < st.next_user_id) ∧
  (st.links.map (fun l => (l.issuer, l.name_id))).Nodup ∧
  (∀ l ∈ st.links, ∃ u ∈ st.users, u.id = l.user_id)

instance (st : State) : Decidable st.Wf := by
  unfold State.Wf; infer_instance

/-- Group-side well-formedness: distinct group primary keys below the
auto-increment counter, distinct group names (the `name` column is unique),
and the unique constraint on the membership rows `(group, user)`. -/
def State.WfGroups (st : State) : Prop :=
  (st.groups.map (fun g => g.id)).Nodup ∧
  (∀ g ∈ st.groups, g.id < st.next_group_id) ∧
  (st.groups.map (fun g => g.name)).Nodup ∧
  st.memberships.Nodup

instance (st : State) : Decidable st.WfGroups := by
  unfold State.WfGroups; infer_instance

/-! Concrete fixtures used by counterexamples and witnesses, mirroring the
repository's test fixtures (`tests/test_default_adapter.py`). -/

/-- A baseline settings snapshot close to the shipped defaults. -/
def cfg0 : Config :=
  { TRANSIENT_FEDERATION_ATTRIBUTE := none,
    LOOKUP_BY_ATTRIBUTES := [],
    PROVISION := true,
    AUTHN_CLASSREF := [],
    USERNAME_TEMPLATE := [.attrIdx "username" 0],
    REALM := "saml",
    ENTITY_ID := "http://idp5/metadata",
    SUPERUSER_MAPPING := [],
    GROUP_ATTRIBUTE := "group",
    CREATE_GROUP := true }

/-- The attribute bag of the repository's `saml_attributes` fixture. -/
def sa0 : SamlAttributes :=
  { name_id_format := "urn:oasis:names:tc:SAML:2.0:nameid-format:persistent",
    name_id_content := String.mk (List.replicate 32 'x'),
    issuer := "http://idp5/metadata",
    authn_context_class_ref := none,
    attrs := [("username", .list ["foobar"]), ("group", .list ["GroupB", "GroupC"])] }

/-- The empty store. -/
def st0 : State :=
  { users := [], links := [], groups := [], memberships := [],
    next_user_id := 0, next_group_id := 0 }

/-- The `john` fixture user. -/
def john : User :=
  { id := 0, username := "john.doe", email := "john.doe@example.com",
    first_name := "", last_name := "", is_staff := false, is_superuser := false }

/-- The `jane` fixture user (same email address as `john`). -/
def jane : User :=
  { id := 1, username := "jane.doe", email := "john.doe@example.com",
    first_name := "", last_name := "", is_staff := false, is_superuser := false }

/-- A store holding `john` and `jane`, neither linked. -/
def stJJ : State :=
  { users := [john, jane], links := [], groups := [], memberships := [],
    next_user_id := 2, next_group_id := 0 }

/-- The store `stJJ` with `jane` already linked to an identity. -/
def stJL : State :=
  { stJJ with
    links := [{ issuer := "http://idp5/metadata", name_id := "n1", user_id := 1 }] }

/-- A bag carrying the shared email under the attribute `mail`. -/
def saMail : SamlAttributes :=
  { sa0 with attrs := [("mail", .list ["john.doe@example.com"])] }

/-- A lookup rule matching the `email` user field against `mail`. -/
def ruleEmail : LookupRule :=
  { user_field := some "email", saml_attribute := some "mail", ignore_case := false }

/-- Settings with an attribute-lookup rule on the shared email and
provisioning enabled. -/
def cfgC3 : Config :=
  { cfg0 with LOOKUP_BY_ATTRIBUTES := [ruleEmail], PROVISION := true }

/-- A bag carrying the ambiguous shared email and a username claim. -/
def saC3 : SamlAttributes :=
  { sa0 with attrs := [("mail", .list ["john.doe@example.com"]),
                       ("username", .list ["foobar"])] }

/-! Helper lemmas about `find?` under the database uniqueness constraints. -/

/-- When the predicate singles out one member, `find?` locates it. -/
theorem find?_unique {α} {p : α → Bool} {l : List α} {a : α}
    (ha : a ∈ l) (hpa : p a = true)
    (uniq : ∀ b ∈ l, p b = true → b = a) : l.find? p = some a := by
  induction l with
  | nil => cases ha
  | cons x xs ih =>
    rcases List.mem_cons.mp ha with h | h
    · subst h
      simp [List.find?_cons_of_pos _ hpa]
    · by_cases hx : p x = true
      · have hxa := uniq x (List.mem_cons_self x xs) hx
        subst hxa
        simp [List.find?_cons_of_pos _ hpa]
      · rw [List.find?_cons_of_neg _ (by simpa using hx)]
        exact ih h (fun b hb hpb => uniq b (List.mem_cons_of_mem _ hb) hpb)

/-- Under the unique key constraint, the direct-link query finds a given link. -/
theorem links_find?_key {links : List Link} {l : Link}
    (hnd : (links.map (fun k => (k.issuer, k.name_id))).Nodup)
    (hl : l ∈ links) (p : Link → Bool)
    (hp : ∀ k, p k = true ↔ (k.issuer = l.issuer ∧ k.name_id = l.name_id)) :
    links.find? p = some l := by
  refine find?_unique hl ((hp l).mpr ⟨rfl, rfl⟩) ?_
  intro b hb hpb
  have hkey := (hp b).mp hpb
  exact List.inj_on_of_nodup_map hnd hb hl (by simp [hkey.1, hkey.2])

/-- Under distinct primary keys, the user query by id finds a given user. -/
theorem users_find?_id {users : List User} {u : User}
    (hnd : (users.map (fun v => v.id)).Nodup) (hu : u ∈ users) :
    users.find? (fun v => v.id == u.id) = some u := by
  refine find?_unique hu (by simp) ?_
  intro b hb hpb
  exact List.inj_on_of_nodup_map hnd hb hu (by simpa using hpb)

/-- In a well-formed store, an unanswered direct-link lookup means no link
with that key exists at all. -/
theorem no_link_of_findLinkedUser_none {st : State} {issuer name_id : String}
    (hwf : st.Wf) (h : findLinkedUser st issuer name_id = none) :
    ∀ k ∈ st.links, ¬(k.issuer = issuer ∧ k.name_id = name_id) := by
  intro k hk hkey
  unfold findLinkedUser at h
  rcases hfind : st.links.find? (fun l => l.issuer == issuer && l.name_id == name_id) with _ | l
  · rw [List.find?_eq_none] at hfind
    exact hfind k hk (by simp [hkey.1, hkey.2])
  · rw [hfind] at h
    have hlmem := List.mem_of_find?_eq_some hfind
    obtain ⟨u, hu, huid⟩ := hwf.2.2.2 l hlmem
    rw [List.find?_eq_none] at h
    exact h u hu (by simp [huid])

/-! Claim C4. -/

/-- Claim C4 is false as stated: with an absent `idp`, `authorize` does not
raise `AccessDenied` (`PermissionDenied`); it returns `False` (adapters.py
lines 102-103), which is also not the claimed `true`. -/
theorem authorize_absent_idp_returns_false :
    authorize none sa0 = Except.ok false ∧
      authorize none sa0 ≠ Except.error () := by
  exact ⟨rfl, by simp [authorize]⟩

/-- Claim C4 (amended): `authorize` returns `false` when `idp_config` is
absent; raises `AccessDenied` when `AUTHN_CLASSREF` is configured and the
assertion's authentication-context-class-reference is missing or not in the
configured allowed set; and returns `true` in all other cases.  Being a pure
function of its inputs, it has no side effects. -/
theorem authorize_contract (cfg : Config) (sa : SamlAttributes) :
    authorize none sa = Except.ok false ∧
    (cfg.AUTHN_CLASSREF ≠ [] →
      (sa.authn_context_class_ref = none →
        authorize (some cfg) sa = Except.error ()) ∧
      (∀ s, sa.authn_context_class_ref = some s → s ∉ cfg.AUTHN_CLASSREF →
        authorize (some cfg) sa = Except.error ()) ∧
      (∀ s, sa.authn_context_class_ref = some s → s ∈ cfg.AUTHN_CLASSREF →
        authorize (some cfg) sa = Except.ok true)) ∧
    (cfg.AUTHN_CLASSREF = [] → authorize (some cfg) sa = Except.ok true) := by
  refine ⟨rfl, ?_, ?_⟩
  · intro hne
    have hne' : cfg.AUTHN_CLASSREF.isEmpty = false := by
      cases h : cfg.AUTHN_CLASSREF with
      | nil => exact absurd h hne
      | cons a l => simp
    refine ⟨?_, ?_, ?_⟩
    · intro hnone
      simp [authorize, hne', hnone]
    · intro s hs hmem
      simp [authorize, hne', hs]
      simpa using hmem
    · intro s hs hmem
      simp [authorize, hne', hs]
      simpa using hmem
  · intro hnil
    simp [authorize, hnil]

/-- Witness for `authorize_contract`: at concrete inputs the three behaviours
are realised. -/
theorem authorize_contract_witness :
    authorize none sa0 = Except.ok false ∧
    authorize (some { cfg0 with AUTHN_CLASSREF := ["urn:x"] })
        { sa0 with authn_context_class_ref := some "urn:x" } = Except.ok true ∧
    authorize (some { cfg0 with AUTHN_CLASSREF := ["urn:x"] }) sa0 =
      Except.error () := by
  refine ⟨(authorize_contract cfg0 sa0).1, ?_, ?_⟩
  · exact ((authorize_contract { cfg0 with AUTHN_CLASSREF := ["urn:x"] }
      { sa0 with authn_context_class_ref := some "urn:x" }).2.1 (by decide)).2.2
      "urn:x" rfl (by decide)
  · exact ((authorize_contract { cfg0 with AUTHN_CLASSREF := ["urn:x"] }
      sa0).2.1 (by decide)).1 rfl

/-! Claim C6. -/

/-- Claim C6: for a transient name-identifier format, `lookup_user` returns
null when `TRANSIENT_FEDERATION_ATTRIBUTE` is not configured (unset or empty),
when the configured attribute is absent or empty in the bag, or when it
carries more than one value; only when the attribute is present with exactly
one value does resolution proceed, with that value as the linking key. -/
theorem lookup_user_transient (cfg : Config) (sa : SamlAttributes)
    (ht : sa.name_id_format = SAML2_NAME_IDENTIFIER_FORMAT_TRANSIENT) :
    ((cfg.TRANSIENT_FEDERATION_ATTRIBUTE = none ∨
        cfg.TRANSIENT_FEDERATION_ATTRIBUTE = some "") →
      ∀ st, lookup_user cfg sa st = (none, st)) ∧
    (∀ tfa, cfg.TRANSIENT_FEDERATION_ATTRIBUTE = some tfa → tfa ≠ "" →
      (sa.get tfa = none → ∀ st, lookup_user cfg sa st = (none, st)) ∧
      (∀ v, sa.get tfa = some v → v.truthy = false →
        ∀ st, lookup_user cfg sa st = (none, st)) ∧
      (∀ l, sa.get tfa = some (.list l) → 2 ≤ l.length →
        ∀ st, lookup_user cfg sa st = (none, st)) ∧
      (∀ s, sa.get tfa = some (.str s) → s ≠ "" →
        deriveNameId cfg sa = some s) ∧
      (∀ s, sa.get tfa = some (.list [s]) → deriveNameId cfg sa = some s)) := by
  have htfmt : (sa.name_id_format == SAML2_NAME_IDENTIFIER_FORMAT_TRANSIENT) = true := by
    simp [ht]
  constructor
  · rintro (h | h) st <;>
      simp [lookup_user, deriveNameId, htfmt, h, String.isEmpty]
  · intro tfa htfa hne
    have hne' : tfa.isEmpty = false := by
      cases h : tfa.isEmpty
      · rfl
      · exact absurd ((String.isEmpty_iff tfa).mp h) hne
    refine ⟨?_, ?_, ?_, ?_, ?_⟩
    · intro habs st
      simp [lookup_user, deriveNameId, htfmt, htfa, hne', habs]
    · intro v hv hfalse st
      simp [lookup_user, deriveNameId, htfmt, htfa, hne', hv, hfalse]
    · intro l hl hlen st
      have hlen' : (l.length == 1) = false := by
        simp only [beq_eq_false_iff_ne]
        omega
      have htr : AttrVal.truthy (.list l) = true := by
        unfold AttrVal.truthy
        simp only [Bool.not_eq_true', List.isEmpty_eq_false_iff_exists_mem]
        cases l with
        | nil => simp at hlen
        | cons a as => exact ⟨a, List.mem_cons_self a as⟩
      simp [lookup_user, deriveNameId, htfmt, htfa, hne', hl, htr, hlen']
    · intro s hs hsne
      have hsfalse : s.isEmpty = false := by
        cases h : s.isEmpty
        · rfl
        · exact absurd ((String.isEmpty_iff s).mp h) hsne
      have : AttrVal.truthy (.str s) = true := by
        simp [AttrVal.truthy, hsfalse]
      simp [deriveNameId, htfmt, htfa, hne', hs, this]
    · intro s hs
      simp [deriveNameId, htfmt, htfa, hne', hs, AttrVal.truthy]

/-- Witness for `lookup_user_transient`: concrete transient bags exercising
the refusal cases and the single-value success case. -/
theorem lookup_user_transient_witness :
    lookup_user { cfg0 with TRANSIENT_FEDERATION_ATTRIBUTE := none }
      { sa0 with name_id_format := SAML2_NAME_IDENTIFIER_FORMAT_TRANSIENT } st0 =
        (none, st0) ∧
    lookup_user { cfg0 with TRANSIENT_FEDERATION_ATTRIBUTE := some "email" }
      { sa0 with name_id_format := SAML2_NAME_IDENTIFIER_FORMAT_TRANSIENT,
                 attrs := [("email", .list ["a@x", "b@x"])] } st0 = (none, st0) ∧
    deriveNameId { cfg0 with TRANSIENT_FEDERATION_ATTRIBUTE := some "email" }
      { sa0 with name_id_format := SAML2_NAME_IDENTIFIER_FORMAT_TRANSIENT,
                 attrs := [("email", .list ["a@x"])] } = some "a@x" := by
  refine ⟨?_, ?_, ?_⟩
  · exact (lookup_user_transient _ _ rfl).1 (Or.inl rfl) st0
  · exact ((lookup_user_transient _ _ rfl).2 "email" rfl (by decide)).2.2.1
      ["a@x", "b@x"] (by decide) (by decide) st0
  · exact ((lookup_user_transient _ _ rfl).2 "email" rfl (by decide)).2.2.2.2
      "a@x" (by decide)

/-! Claim C5. -/

/-- Claim C5: with no existing identity link, no attribute-lookup candidate
and `PROVISION` false, `lookup_user` returns null and the store — in
particular the set of users — is entirely unchanged. -/
theorem lookup_user_provision_disabled (cfg : Config) (sa : SamlAttributes)
    (st : State) (nid : String)
    (hd : deriveNameId cfg sa = some nid)
    (hnl : findLinkedUser st sa.issuer nid = none)
    (hnc : candidateSet st sa cfg.LOOKUP_BY_ATTRIBUTES = [])
    (hp : cfg.PROVISION = false) :
    lookup_user cfg sa st = (none, st) := by
  have hlba : lookupByAttributes st sa cfg.LOOKUP_BY_ATTRIBUTES = none := by
    unfold lookupByAttributes
    simp [hnc]
  unfold lookup_user
  rw [hd]
  simp only [hnl, hlba, hp]
  cases cfg.LOOKUP_BY_ATTRIBUTES.isEmpty <;> simp

/-- Witness for `lookup_user_provision_disabled`: a persistent bag against a
store holding two unlinked users, with provisioning disabled. -/
theorem lookup_user_provision_disabled_witness :
    lookup_user { cfg0 with PROVISION := false } sa0 stJJ = (none, stJJ) :=
  lookup_user_provision_disabled { cfg0 with PROVISION := false } sa0 stJJ
    sa0.name_id_content (by decide) (by decide) (by decide) (by decide)

/-! Claim C7. -/

/-- Claim C7: every candidate produced by the attribute-based lookup — and
hence every user resolvable through a `LOOKUP_BY_ATTRIBUTES` rule — holds no
identity link: already-linked users are excluded from all attribute-based
matches. -/
theorem lookupByAttributes_excludes_linked (st : State) (sa : SamlAttributes)
    (rules : List LookupRule) :
    (∀ u ∈ candidateSet st sa rules, hasLink st u.id = false) ∧
    (∀ u, lookupByAttributes st sa rules = some u → hasLink st u.id = false) := by
  have hmain : ∀ u ∈ candidateSet st sa rules, hasLink st u.id = false := by
    intro u hu
    obtain ⟨rule, hrule, hm⟩ := List.mem_flatMap.mp (List.mem_dedup.mp hu)
    unfold matchRule at hm
    split at hm
    · cases hm
    · split at hm
      · split at hm
        · cases hm
        · split at hm
          · cases hm
          · split at hm
            · obtain ⟨value, hval, hmf⟩ := List.mem_flatMap.mp hm
              have hpred := (List.mem_filter.mp hmf).2
              have := (Bool.and_eq_true _ _).mp hpred |>.1
              simpa using this
            · cases hm
      · cases hm
  refine ⟨hmain, ?_⟩
  intro u hu
  dsimp only [lookupByAttributes] at hu
  split at hu
  · exact hmain u (List.mem_of_mem_head? hu)
  · cases hu

/-- Witness for `lookupByAttributes_excludes_linked`: with `jane` already
linked, only the unlinked `john` matches a rule on the shared email. -/
theorem lookupByAttributes_excludes_linked_witness :
    lookupByAttributes stJL saMail [ruleEmail] = some john ∧
    hasLink stJL john.id = false := by
  refine ⟨by decide, ?_⟩
  exact (lookupByAttributes_excludes_linked stJL saMail [ruleEmail]).2 john (by decide)

/-! Claim C8. -/

/-- Claim C8: `provision_superuser` grants both the staff and superuser flags
when some `SUPERUSER_MAPPING` entry's attribute is present with an
intersecting value set (the Python loop breaks at the first such entry),
revokes both flags when the mapping is configured but no entry matches, and
leaves the user untouched when the mapping is absent. -/
theorem provision_superuser_spec (cfg : Config) (sa : SamlAttributes) (u : User) :
    (cfg.SUPERUSER_MAPPING = [] → provision_superuser cfg sa u = u) ∧
    ((∃ e ∈ cfg.SUPERUSER_MAPPING, superuserEntryMatches sa e = true) →
      (provision_superuser cfg sa u).is_staff = true ∧
      (provision_superuser cfg sa u).is_superuser = true) ∧
    (cfg.SUPERUSER_MAPPING ≠ [] →
      (∀ e ∈ cfg.SUPERUSER_MAPPING, superuserEntryMatches sa e = false) →
      (provision_superuser cfg sa u).is_staff = false ∧
      (provision_superuser cfg sa u).is_superuser = false) := by
  refine ⟨?_, ?_, ?_⟩
  · intro h
    simp [provision_superuser, h]
  · rintro ⟨e, he, hm⟩
    have hne : cfg.SUPERUSER_MAPPING.isEmpty = false := by
      cases h : cfg.SUPERUSER_MAPPING with
      | nil => rw [h] at he; cases he
      | cons a l => simp
    unfold provision_superuser
    rw [hne]
    simp only [Bool.false_eq_true, if_false]
    cases hf : cfg.SUPERUSER_MAPPING.find? (superuserEntryMatches sa) with
    | none =>
      rw [List.find?_eq_none] at hf
      exact absurd hm (by simpa using hf e he)
    | some e' => exact ⟨rfl, rfl⟩
  · intro hne hall
    have hne' : cfg.SUPERUSER_MAPPING.isEmpty = false := by
      cases h : cfg.SUPERUSER_MAPPING with
      | nil => exact absurd h hne
      | cons a l => simp
    unfold provision_superuser
    rw [hne']
    simp only [Bool.false_eq_true, if_false]
    have hf : cfg.SUPERUSER_MAPPING.find? (superuserEntryMatches sa) = none := by
      rw [List.find?_eq_none]
      intro e he
      simp [hall e he]
    rw [hf]
    exact ⟨rfl, rfl⟩

/-- Witness for `provision_superuser_spec`: a matching mapping entry grants
the flags, an unmatched configured mapping revokes them on a previously
privileged user, an absent mapping leaves that user untouched. -/
theorem provision_superuser_spec_witness :
    (provision_superuser
        { cfg0 with SUPERUSER_MAPPING := [("role", .list ["admin"])] }
        { sa0 with attrs := [("role", .list ["admin", "user"])] } john).is_superuser = true ∧
    (provision_superuser
        { cfg0 with SUPERUSER_MAPPING := [("role", .list ["admin"])] }
        sa0 { john with is_staff := true, is_superuser := true }).is_superuser = false ∧
    provision_superuser cfg0 sa0 { john with is_staff := true, is_superuser := true } =
      { john with is_staff := true, is_superuser := true } := by
  refine ⟨?_, ?_, ?_⟩
  · exact ((provision_superuser_spec
      { cfg0 with SUPERUSER_MAPPING := [("role", .list ["admin"])] }
      { sa0 with attrs := [("role", .list ["admin", "user"])] } john).2.1
      ⟨("role", .list ["admin"]), by decide, by decide⟩).2
  · exact ((provision_superuser_spec
      { cfg0 with SUPERUSER_MAPPING := [("role", .list ["admin"])] }
      sa0 { john with is_staff := true, is_superuser := true }).2.2
      (by decide) (by decide)).2
  · exact (provision_superuser_spec cfg0 sa0
      { john with is_staff := true, is_superuser := true }).1 rfl

/-! Reduction lemmas for `lookup_user` and frame lemmas for `resolveLink`. -/

/-- With a derived key, no existing link and no attribute-lookup candidate,
`lookup_user` reduces to the provisioning fallback. -/
theorem lookup_user_fallthrough (cfg : Config) (sa : SamlAttributes)
    (st : State) (nid : String)
    (hd : deriveNameId cfg sa = some nid)
    (hnl : findLinkedUser st sa.issuer nid = none)
    (hlba : lookupByAttributes st sa cfg.LOOKUP_BY_ATTRIBUTES = none) :
    lookup_user cfg sa st =
      if cfg.PROVISION then
        resolveLink cfg sa sa.issuer nid (create_user st).1 true (create_user st).2
      else (none, st) := by
  unfold lookup_user
  rw [hd]
  simp only [hnl, hlba]
  cases hP : cfg.PROVISION <;> cases hE : cfg.LOOKUP_BY_ATTRIBUTES.isEmpty <;> simp

/-- A `resolveLink` call for a user that was not created in this call never
touches the user table. -/
theorem resolveLink_users_notcreated (cfg : Config) (sa : SamlAttributes)
    (issuer name_id : String) (u : User) (st : State) :
    ((resolveLink cfg sa issuer name_id u false st).2).users = st.users := by
  unfold resolveLink link_user
  cases hf : st.links.find? (fun l => l.name_id == name_id && l.issuer == issuer) with
  | none => simp
  | some l =>
    by_cases hne : (u.id != l.user_id) = true
    · simp [hne]
    · simp only [Bool.not_eq_true] at hne
      simp [hne]

/-- A `resolveLink` call for a just-created user can delete or rename only
that user: every other user row survives unchanged. -/
theorem resolveLink_users_created (cfg : Config) (sa : SamlAttributes)
    (issuer name_id : String) (u : User) (st : State) :
    ∀ v ∈ st.users, v.id ≠ u.id →
      v ∈ ((resolveLink cfg sa issuer name_id u true st).2).users := by
  intro v hv hvne
  unfold resolveLink link_user
  cases hf : st.links.find? (fun l => l.name_id == name_id && l.issuer == issuer) with
  | some l =>
    by_cases hne : (u.id != l.user_id) = true
    · simp only [hne, if_true]
      simp [deleteUser, List.mem_filter, hv, hvne]
    · simp only [Bool.not_eq_true] at hne
      simp only [hne, Bool.false_eq_true, if_false]
      cases hfin : finish_create_user cfg sa u.id st with
      | none =>
        simp only [hfin]
        simp [deleteUser, List.mem_filter, hv, hvne]
      | some st2 =>
        cases hfc : format_username cfg sa with
        | none => simp [finish_create_user, hfc] at hfin
        | some name =>
          by_cases hE : name.isEmpty = true
          · simp [finish_create_user, hfc, hE] at hfin
          · have : st2 = setUsername st u.id name := by
              simp [finish_create_user, hfc, hE] at hfin
              exact hfin.symm
            subst this
            simp only [hfin, setUsername]
            refine List.mem_map.mpr ⟨v, hv, ?_⟩
            simp [hvne]
  | none =>
    have hself : (u.id != u.id) = false := by simp
    simp only [hself, Bool.false_eq_true, if_false]
    cases hfin : finish_create_user cfg sa u.id
        { st with links := st.links ++ [{ issuer := issuer, name_id := name_id, user_id := u.id }] } with
    | none =>
      simp only [hfin]
      simp [deleteUser, List.mem_filter, hv, hvne]
    | some st2 =>
      cases hfc : format_username cfg sa with
      | none => simp [finish_create_user, hfc] at hfin
      | some name =>
        by_cases hE : name.isEmpty = true
        · simp [finish_create_user, hfc, hE] at hfin
        · simp only [finish_create_user, hfc, hE, Bool.false_eq_true, if_false,
            Option.some.injEq] at hfin
          subst hfin
          simp only [setUsername]
          refine List.mem_map.mpr ⟨v, hv, ?_⟩
          simp [hvne]

/-! Claim C10. -/

/-- Claim C10: `lookup_user` never deletes a pre-existing user: every user
row present before the call is still present (unchanged) afterwards.  The
only deletions the code performs target the user it created itself during the
same invocation (on a lost link race, or on username-assignment failure). -/
theorem lookup_user_preserves_users (cfg : Config) (sa : SamlAttributes)
    (st : State) (hwf : st.Wf) :
    ∀ v ∈ st.users, v ∈ ((lookup_user cfg sa st).2).users := by
  intro v hv
  have hfresh : v.id ≠ st.next_user_id := by
    have := hwf.2.1 v hv
    omega
  unfold lookup_user
  cases hd : deriveNameId cfg sa with
  | none => exact hv
  | some nid =>
    dsimp only
    cases hnl : findLinkedUser st sa.issuer nid with
    | some u => exact hv
    | none =>
      dsimp only
      cases hE : cfg.LOOKUP_BY_ATTRIBUTES.isEmpty with
      | true =>
        simp only [if_true]
        cases hP : cfg.PROVISION with
        | false => exact hv
        | true =>
          simp only [Bool.not_true, Bool.false_eq_true, if_false]
          refine resolveLink_users_created cfg sa sa.issuer nid
            (create_user st).1 (create_user st).2 v ?_ ?_
          · simp [create_user, hv]
          · simpa [create_user] using hfresh
      | false =>
        simp only [Bool.false_eq_true, if_false]
        cases hL : lookupByAttributes st sa cfg.LOOKUP_BY_ATTRIBUTES with
        | some u =>
          dsimp only
          rw [resolveLink_users_notcreated]
          exact hv
        | none =>
          dsimp only
          cases hP : cfg.PROVISION with
          | false => exact hv
          | true =>
            simp only [Bool.not_true, Bool.false_eq_true, if_false]
            refine resolveLink_users_created cfg sa sa.issuer nid
              (create_user st).1 (create_user st).2 v ?_ ?_
            · simp [create_user, hv]
            · simpa [create_user] using hfresh

/-- Witness for `lookup_user_preserves_users`: a provisioning run against a
well-formed store with two pre-existing users keeps both. -/
theorem lookup_user_preserves_users_witness :
    stJJ.Wf ∧ john ∈ ((lookup_user cfg0 sa0 stJJ).2).users :=
  ⟨by decide,
   lookup_user_preserves_users cfg0 sa0 stJJ (by decide) john (by decide)⟩

/-! Claim C3. -/

set_option maxRecDepth 8192 in
/-- Claim C3 is false as stated: against a store with two unlinked users both
matching the lookup rule (an ambiguous match) and no existing link, with
`PROVISION` enabled, `lookup_user` does not return null — it provisions and
returns a fresh user. -/
theorem lookup_user_ambiguous_counterexample :
    1 < (candidateSet stJJ saC3 cfgC3.LOOKUP_BY_ATTRIBUTES).length ∧
    stJJ.links = [] ∧
    (lookup_user cfgC3 saC3 stJJ).1 ≠ none := by decide

/-- Claim C3 (amended): an ambiguous attribute-based match (more than one
candidate) makes `_lookup_by_attributes` yield no candidate — never a silent
pick among the matches — and resolution then returns null exactly when
`PROVISION` is false; with `PROVISION` true a fresh user is provisioned
instead, so no pre-existing user is ever authenticated off an ambiguous
match. -/
theorem lookup_user_ambiguous (cfg : Config) (sa : SamlAttributes)
    (st : State) (nid : String) (hwf : st.Wf)
    (hd : deriveNameId cfg sa = some nid)
    (hnl : findLinkedUser st sa.issuer nid = none)
    (hamb : 1 < (candidateSet st sa cfg.LOOKUP_BY_ATTRIBUTES).length) :
    lookupByAttributes st sa cfg.LOOKUP_BY_ATTRIBUTES = none ∧
    (cfg.PROVISION = false → lookup_user cfg sa st = (none, st)) ∧
    (∀ w, (lookup_user cfg sa st).1 = some w → w ∉ st.users) := by
  have hlen : ((candidateSet st sa cfg.LOOKUP_BY_ATTRIBUTES).length == 1) = false := by
    simp only [beq_eq_false_iff_ne]
    omega
  have hlba : lookupByAttributes st sa cfg.LOOKUP_BY_ATTRIBUTES = none := by
    unfold lookupByAttributes
    simp [hlen]
  have hred := lookup_user_fallthrough cfg sa st nid hd hnl hlba
  refine ⟨hlba, ?_, ?_⟩
  · intro hP
    rw [hred, hP]
    simp
  · intro w hw hmem
    cases hP : cfg.PROVISION with
    | false =>
      rw [hred, hP] at hw
      simp at hw
    | true =>
      rw [hred, hP, if_pos rfl] at hw
      have hnolink : (create_user st).2.links.find?
          (fun l => l.name_id == nid && l.issuer == sa.issuer) = none := by
        rw [List.find?_eq_none]
        intro k hk
        have hk' : k ∈ st.links := by simpa [create_user] using hk
        have := no_link_of_findLinkedUser_none hwf hnl k hk'
        simp only [Bool.and_eq_true, beq_iff_eq]
        intro hcontra
        exact this ⟨hcontra.2, hcontra.1⟩
      unfold resolveLink link_user at hw
      rw [hnolink] at hw
      simp only at hw
      have hself : ((create_user st).1.id != (create_user st).1.id) = false := by simp
      rw [hself] at hw
      simp only [Bool.false_eq_true, if_false] at hw
      have hid : w.id = st.next_user_id := by
        cases hfin : finish_create_user cfg sa (create_user st).1.id
            { (create_user st).2 with
              links := (create_user st).2.links ++
                [{ issuer := sa.issuer, name_id := nid, user_id := (create_user st).1.id }] } with
        | none =>
          rw [hfin] at hw
          simp at hw
        | some st2 =>
          rw [hfin] at hw
          simp only at hw
          have := List.find?_some hw
          have hwid : w.id = (create_user st).1.id := by simpa using this
          simpa [create_user] using hwid
      have := hwf.2.1 w hmem
      omega

/-- Witness for `lookup_user_ambiguous`: the concrete ambiguous store of the
counterexample, with provisioning disabled resolution indeed returns null. -/
theorem lookup_user_ambiguous_witness :
    lookup_user { cfgC3 with PROVISION := false } saC3 stJJ = (none, stJJ) :=
  (lookup_user_ambiguous { cfgC3 with PROVISION := false } saC3 stJJ
    saC3.name_id_content (by decide) (by decide) (by decide) (by decide)).2.1 rfl

/-! Claim C1. -/

/-- Claim C1: when the identity link for `(issuer, name_id)` already exists
and designates a user different from the locally chosen candidate, the link
step of `lookup_user` (`resolveLink`, adapters.py lines 180-196) returns the
user referenced by the existing link; the candidate is deleted iff it was
newly provisioned in this call, and the link store is left untouched — so the
key keeps designating its unique owner and at most one user is ever durably
linked to a given `(issuer, name_id)` pair. -/
theorem resolveLink_race (cfg : Config) (sa : SamlAttributes)
    (issuer name_id : String) (user : User) (created : Bool) (st : State)
    (l : Link) (owner : User)
    (hl : l ∈ st.links) (hiss : l.issuer = issuer) (hnid : l.name_id = name_id)
    (hkey : (st.links.map (fun k => (k.issuer, k.name_id))).Nodup)
    (hids : (st.users.map (fun v => v.id)).Nodup)
    (howner : owner ∈ st.users) (hoid : owner.id = l.user_id)
    (hne : user.id ≠ l.user_id)
    (hnolinks : ∀ k ∈ st.links, k.user_id ≠ user.id) :
    (resolveLink cfg sa issuer name_id user created st).1 = some owner ∧
    ((resolveLink cfg sa issuer name_id user created st).2).links = st.links ∧
    (created = true →
      ((resolveLink cfg sa issuer name_id user created st).2).users =
        st.users.filter (fun v => v.id != user.id)) ∧
    (created = false →
      (resolveLink cfg sa issuer name_id user created st).2 = st) := by
  subst hiss
  subst hnid
  have hfind : st.links.find? (fun k => k.name_id == l.name_id && k.issuer == l.issuer) =
      some l := by
    refine links_find?_key hkey hl _ ?_
    intro k
    constructor
    · intro h
      have h' := (Bool.and_eq_true _ _).mp h
      exact ⟨by simpa using h'.2, by simpa using h'.1⟩
    · intro h
      simp [h.1, h.2]
  have hne' : (user.id != l.user_id) = true := by simpa using hne
  have hflu : st.users.find? (fun x => x.id == l.user_id) = some owner := by
    rw [← hoid]
    exact users_find?_id hids howner
  unfold resolveLink link_user
  rw [hfind]
  dsimp only
  rw [hne']
  simp only [if_true]
  rw [hflu]
  cases created with
  | true =>
    refine ⟨rfl, ?_, fun _ => rfl, fun hc => absurd hc (by decide)⟩
    show (deleteUser st user.id).links = st.links
    dsimp only [deleteUser]
    rw [List.filter_eq_self.mpr]
    intro k hk
    simpa using hnolinks k hk
  | false =>
    exact ⟨rfl, rfl, fun hc => absurd hc (by decide), fun _ => rfl⟩

/-- Witness for `resolveLink_race`: `john` as a freshly created candidate
loses the race against `jane`'s existing link and `jane` is adopted. -/
theorem resolveLink_race_witness :
    (resolveLink cfg0 sa0 "http://idp5/metadata" "n1" john true stJL).1 = some jane ∧
    ((resolveLink cfg0 sa0 "http://idp5/metadata" "n1" john true stJL).2).links = stJL.links := by
  have h := resolveLink_race cfg0 sa0 "http://idp5/metadata" "n1" john true stJL
    { issuer := "http://idp5/metadata", name_id := "n1", user_id := 1 } jane
    (by decide) rfl rfl (by decide) (by decide) (by decide) rfl (by decide)
    (by decide)
  exact ⟨h.1, h.2.1⟩

/-! Claim C2. -/

/-- Claim C2: when the derived `(issuer, name_id)` pair is already linked to a
user, `lookup_user` returns that user with the store unchanged: the
direct-link path performs no user creation and no write.  In particular, a
second call with the same bag (after a first call established the link)
returns the same user as the first. -/
theorem lookup_user_linked_readonly (cfg : Config) (sa : SamlAttributes)
    (st : State) (nid : String) (l : Link) (u : User)
    (hwf : st.Wf)
    (hd : deriveNameId cfg sa = some nid)
    (hl : l ∈ st.links) (hiss : l.issuer = sa.issuer) (hnid : l.name_id = nid)
    (hu : u ∈ st.users) (hid : u.id = l.user_id) :
    lookup_user cfg sa st = (some u, st) := by
  have hflu : findLinkedUser st sa.issuer nid = some u := by
    unfold findLinkedUser
    have hfind : st.links.find? (fun k => k.issuer == sa.issuer && k.name_id == nid) =
        some l := by
      refine links_find?_key hwf.2.2.1 hl _ ?_
      intro k
      constructor
      · intro h
        have h' := (Bool.and_eq_true _ _).mp h
        exact ⟨by simpa [hiss] using h'.1, by simpa [hnid] using h'.2⟩
      · intro h
        simp [h.1, h.2, hiss, hnid]
    rw [hfind]
    dsimp only
    rw [← hid]
    exact users_find?_id hwf.1 hu
  unfold lookup_user
  rw [hd]
  dsimp only
  rw [hflu]

/-- Witness for `lookup_user_linked_readonly`: a repeat login for `jane`'s
already-linked identity returns `jane` and leaves the store untouched. -/
theorem lookup_user_linked_readonly_witness :
    lookup_user cfg0 { sa0 with name_id_content := "n1" } stJL = (some jane, stJL) :=
  lookup_user_linked_readonly cfg0 { sa0 with name_id_content := "n1" } stJL "n1"
    { issuer := "http://idp5/metadata", name_id := "n1", user_id := 1 } jane
    (by decide) (by decide) (by decide) rfl rfl (by decide) rfl

/-! Lemmas about `resolveGroups`. -/

/-- Group-name resolution only touches the group table: users, links and
membership rows pass through unchanged. -/
theorem resolveGroups_frame (cg : Bool) (names : List String) (st : State) :
    ((resolveGroups cg names st).2).users = st.users ∧
    ((resolveGroups cg names st).2).links = st.links ∧
    ((resolveGroups cg names st).2).memberships = st.memberships := by
  induction names generalizing st with
  | nil => exact ⟨rfl, rfl, rfl⟩
  | cons n rest ih =>
    unfold resolveGroups
    cases hf : st.groups.find? (fun g => g.name == n) with
    | some g =>
      dsimp only
      exact ih st
    | none =>
      cases cg with
      | false =>
        simp only [Bool.false_eq_true, if_false]
        exact ih st
      | true =>
        simp only [eq_self_iff_true, if_true]
        exact ih _

/-- Group-name resolution only appends to the group table. -/
theorem resolveGroups_groups_mono (cg : Bool) (names : List String) (st : State) :
    ∃ ext, ((resolveGroups cg names st).2).groups = st.groups ++ ext := by
  induction names generalizing st with
  | nil => exact ⟨[], by simp [resolveGroups]⟩
  | cons n rest ih =>
    unfold resolveGroups
    cases hf : st.groups.find? (fun g => g.name == n) with
    | some g =>
      dsimp only
      exact ih st
    | none =>
      cases cg with
      | false =>
        simp only [Bool.false_eq_true, if_false]
        exact ih st
      | true =>
        simp only [eq_self_iff_true, if_true]
        obtain ⟨ext, hext⟩ := ih
          { st with groups := st.groups ++ [{ id := st.next_group_id, name := n }],
                    next_group_id := st.next_group_id + 1 }
        exact ⟨{ id := st.next_group_id, name := n } :: ext, by simp [hext]⟩

/-- Every resolved target group is a row of the resulting group table. -/
theorem resolveGroups_mem (cg : Bool) (names : List String) (st : State) :
    ∀ g ∈ (resolveGroups cg names st).1, g ∈ ((resolveGroups cg names st).2).groups := by
  induction names generalizing st with
  | nil =>
    intro g hg
    cases hg
  | cons n rest ih =>
    intro g hg
    unfold resolveGroups at hg ⊢
    cases hf : st.groups.find? (fun g => g.name == n) with
    | some g0 =>
      rw [hf] at hg
      dsimp only at hg ⊢
      rcases List.mem_cons.mp hg with h | h
      · subst h
        obtain ⟨ext, hext⟩ := resolveGroups_groups_mono cg rest st
        rw [hext]
        exact List.mem_append_left _ (List.mem_of_find?_eq_some hf)
      · exact ih st g h
    | none =>
      rw [hf] at hg
      cases cg with
      | false =>
        simp only [Bool.false_eq_true, if_false] at hg ⊢
        exact ih st g hg
      | true =>
        simp only [eq_self_iff_true, if_true] at hg ⊢
        rcases List.mem_cons.mp hg with h | h
        · subst h
          obtain ⟨ext, hext⟩ := resolveGroups_groups_mono true rest
            { st with groups := st.groups ++ [{ id := st.next_group_id, name := n }],
                      next_group_id := st.next_group_id + 1 }
          rw [hext]
          refine List.mem_append_left _ ?_
          exact List.mem_append_right _ (by simp)
        · exact ih _ g h

/-- Resolution keeps the group table well-formed: distinct primary keys, all
below the auto-increment counter. -/
theorem resolveGroups_wf (cg : Bool) (names : List String) (st : State)
    (h1 : (st.groups.map (fun g => g.id)).Nodup)
    (h2 : ∀ g ∈ st.groups, g.id < st.next_group_id) :
    (((resolveGroups cg names st).2).groups.map (fun g => g.id)).Nodup ∧
    ∀ g ∈ ((resolveGroups cg names st).2).groups,
      g.id < ((resolveGroups cg names st).2).next_group_id := by
  induction names generalizing st with
  | nil => exact ⟨h1, h2⟩
  | cons n rest ih =>
    unfold resolveGroups
    cases hf : st.groups.find? (fun g => g.name == n) with
    | some g =>
      dsimp only
      exact ih st h1 h2
    | none =>
      cases cg with
      | false =>
        simp only [Bool.false_eq_true, if_false]
        exact ih st h1 h2
      | true =>
        simp only [eq_self_iff_true, if_true]
        refine ih _ ?_ ?_
        · simp only [List.map_append, List.map_cons, List.map_nil]
          rw [List.nodup_append]
          refine ⟨h1, List.nodup_singleton _, ?_⟩
          intro x hx hx'
          simp only [List.mem_singleton] at hx'
          obtain ⟨g, hg, hgid⟩ := List.mem_map.mp hx
          have := h2 g hg
          omega
        · intro g hg
          rcases List.mem_append.mp hg with h | h
          · have := h2 g h
            dsimp only
            omega
          · simp only [List.mem_singleton] at h
            subst h
            dsimp only
            omega

/-- With group auto-creation, the resolved target names are exactly the
claimed names. -/
theorem resolveGroups_names_create (names : List String) (st : State) :
    ((resolveGroups true names st).1).map (fun g => g.name) = names := by
  induction names generalizing st with
  | nil => rfl
  | cons n rest ih =>
    unfold resolveGroups
    cases hf : st.groups.find? (fun g => g.name == n) with
    | some g =>
      dsimp only
      rw [List.map_cons, ih st]
      have := List.find?_some hf
      simp only [beq_iff_eq] at this
      rw [this]
    | none =>
      simp only [eq_self_iff_true, if_true]
      rw [show ∀ (a : Group) (l : List Group), (a :: l).map (fun g => g.name) = a.name :: l.map (fun g => g.name) from fun a l => rfl, ih]

/-- Without group auto-creation, resolution leaves the store untouched and
keeps exactly the claimed names that exist in the group table. -/
theorem resolveGroups_nocreate (names : List String) (st : State) :
    (resolveGroups false names st).2 = st ∧
    ((resolveGroups false names st).1).map (fun g => g.name) =
      names.filter (fun n => st.groups.any (fun g => g.name == n)) := by
  induction names generalizing st with
  | nil => exact ⟨rfl, rfl⟩
  | cons n rest ih =>
    unfold resolveGroups
    cases hf : st.groups.find? (fun g => g.name == n) with
    | some g =>
      dsimp only
      have hgname : g.name = n := by simpa using List.find?_some hf
      have hany : st.groups.any (fun g => g.name == n) = true := by
        rw [List.any_eq_true]
        exact ⟨g, List.mem_of_find?_eq_some hf, by simp [hgname]⟩
      refine ⟨(ih st).1, ?_⟩
      show g.name :: ((resolveGroups false rest st).1).map (fun g => g.name) = _
      rw [(ih st).2]
      simp [List.filter_cons, hany, hgname]
    | none =>
      simp only [Bool.false_eq_true, if_false]
      have hany : st.groups.any (fun g => g.name == n) = false := by
        rw [List.find?_eq_none] at hf
        simp only [List.any_eq_false]
        intro g hg
        simpa using hf g hg
      refine ⟨(ih st).1, ?_⟩
      rw [(ih st).2]
      simp [List.filter_cons, hany]

/-- The membership-reconciliation core of `provision_groups`: starting from
duplicate-free membership rows, adding the missing target rows and deleting
the off-target rows of the user leaves the user a member of exactly the
target groups, with no duplicate rows. -/
theorem reconcile_memberships (groups : List Group) (mem : List (Nat × Nat))
    (target : List Group) (uid : Nat)
    (hGid : (groups.map (fun g => g.id)).Nodup)
    (hmem : mem.Nodup)
    (hsub : ∀ g ∈ target, g ∈ groups) :
    (∀ gid, (gid, uid) ∈
        ((mem ++ (groups.filter (fun g =>
            (target.map (fun g => g.id)).contains g.id && !mem.contains (g.id, uid))).map
            (fun g => (g.id, uid))).filter
          (fun r => !(r.2 == uid && !(target.map (fun g => g.id)).contains r.1))) ↔
      gid ∈ target.map (fun g => g.id)) ∧
    ((mem ++ (groups.filter (fun g =>
        (target.map (fun g => g.id)).contains g.id && !mem.contains (g.id, uid))).map
        (fun g => (g.id, uid))).filter
      (fun r => !(r.2 == uid && !(target.map (fun g => g.id)).contains r.1))).Nodup := by
  constructor
  · intro gid
    constructor
    · intro h
      have hp := (List.mem_filter.mp h).2
      have : (target.map (fun g => g.id)).contains gid = true := by
        simpa using hp
      simpa using this
    · intro hgid
      obtain ⟨g, hgT, rfl⟩ := List.mem_map.mp hgid
      have hgG := hsub g hgT
      have hcont : (target.map (fun g => g.id)).contains g.id = true := by
        have : g.id ∈ target.map (fun g => g.id) := List.mem_map_of_mem _ hgT
        simpa using this
      have hpred : (!((uid == uid) && !(target.map (fun g => g.id)).contains g.id)) = true := by
        rw [hcont]
        simp
      by_cases hmem0 : (g.id, uid) ∈ mem
      · exact List.mem_filter.mpr ⟨List.mem_append_left _ hmem0, hpred⟩
      · refine List.mem_filter.mpr ⟨List.mem_append_right _ ?_, hpred⟩
        refine List.mem_map.mpr ⟨g, ?_, rfl⟩
        refine List.mem_filter.mpr ⟨hgG, ?_⟩
        refine (Bool.and_eq_true _ _).mpr ⟨hcont, ?_⟩
        simp only [Bool.not_eq_true']
        simpa using hmem0
  · refine List.Nodup.filter _ ?_
    have hFil : (((groups.filter (fun g =>
        (target.map (fun g => g.id)).contains g.id && !mem.contains (g.id, uid))).map
        (fun g => g.id))).Nodup := by
      refine hGid.sublist ?_
      exact (List.filter_sublist groups).map (fun g => g.id)
    have hAdd : ((groups.filter (fun g =>
        (target.map (fun g => g.id)).contains g.id && !mem.contains (g.id, uid))).map
        (fun g => (g.id, uid))).Nodup := by
      have heq : (groups.filter (fun g =>
          (target.map (fun g => g.id)).contains g.id && !mem.contains (g.id, uid))).map
          (fun g => (g.id, uid)) =
        ((groups.filter (fun g =>
          (target.map (fun g => g.id)).contains g.id && !mem.contains (g.id, uid))).map
          (fun g => g.id)).map (fun i => (i, uid)) := by
        rw [List.map_map]
        rfl
      rw [heq]
      refine hFil.map ?_
      intro a b hab
      exact (Prod.ext_iff.mp hab).1
    refine hmem.append hAdd ?_
    intro r hr hrT
    obtain ⟨g, hgF, hEq⟩ := List.mem_map.mp hrT
    have hq := (List.mem_filter.mp hgF).2
    have hnc := ((Bool.and_eq_true _ _).mp hq).2
    have : (g.id, uid) ∉ mem := by
      simp only [Bool.not_eq_true'] at hnc
      simpa using hnc
    rw [hEq] at this
    exact this hr

/-! Claim C9. -/

/-- Claim C9: when the bag carries the configured `GROUP_ATTRIBUTE`, after
`provision_groups` the user's membership rows designate exactly the resolved
target groups — every target group not already held is added, every held
group outside the target set is removed — no duplicate membership rows
exist, and the target set itself consists of all claimed names when
`CREATE_GROUP` is set, or of the claimed names that already exist as groups
otherwise. -/
theorem provision_groups_spec (cfg : Config) (sa : SamlAttributes) (u : User)
    (st : State) (v : AttrVal)
    (hwfg : st.WfGroups)
    (hbag : sa.dictGet cfg.GROUP_ATTRIBUTE = some v) :
    (∀ gid, (gid, u.id) ∈ (provision_groups cfg sa u st).memberships ↔
      gid ∈ ((resolveGroups cfg.CREATE_GROUP v.toList.dedup st).1).map (fun g => g.id)) ∧
    ((provision_groups cfg sa u st).memberships).Nodup ∧
    (cfg.CREATE_GROUP = true →
      ((resolveGroups cfg.CREATE_GROUP v.toList.dedup st).1).map (fun g => g.name) =
        v.toList.dedup) ∧
    (cfg.CREATE_GROUP = false →
      ((resolveGroups cfg.CREATE_GROUP v.toList.dedup st).1).map (fun g => g.name) =
        v.toList.dedup.filter (fun n => st.groups.any (fun g => g.name == n))) := by
  have hframe := resolveGroups_frame cfg.CREATE_GROUP v.toList.dedup st
  have hw := resolveGroups_wf cfg.CREATE_GROUP v.toList.dedup st hwfg.1 hwfg.2.1
  have hkey := reconcile_memberships
    ((resolveGroups cfg.CREATE_GROUP v.toList.dedup st).2).groups
    ((resolveGroups cfg.CREATE_GROUP v.toList.dedup st).2).memberships
    (resolveGroups cfg.CREATE_GROUP v.toList.dedup st).1
    u.id hw.1 (by rw [hframe.2.2]; exact hwfg.2.2.2)
    (resolveGroups_mem cfg.CREATE_GROUP v.toList.dedup st)
  have hmem_eq : (provision_groups cfg sa u st).memberships =
      (((resolveGroups cfg.CREATE_GROUP v.toList.dedup st).2).memberships ++
        ((((resolveGroups cfg.CREATE_GROUP v.toList.dedup st).2).groups.filter (fun g =>
          (((resolveGroups cfg.CREATE_GROUP v.toList.dedup st).1).map (fun g => g.id)).contains g.id &&
            !((resolveGroups cfg.CREATE_GROUP v.toList.dedup st).2).memberships.contains (g.id, u.id))).map
          (fun g => (g.id, u.id)))).filter
        (fun r => !(r.2 == u.id &&
          !(((resolveGroups cfg.CREATE_GROUP v.toList.dedup st).1).map (fun g => g.id)).contains r.1)) := by
    unfold provision_groups
    rw [hbag]
  refine ⟨?_, ?_, ?_, ?_⟩
  · intro gid
    rw [hmem_eq]
    exact hkey.1 gid
  · rw [hmem_eq]
    exact hkey.2
  · intro hcg
    rw [hcg]
    exact resolveGroups_names_create v.toList.dedup st
  · intro hcg
    rw [hcg]
    exact (resolveGroups_nocreate v.toList.dedup st).2

/-- Witness for `provision_groups_spec`: a user in groups A, B, C with
claimed groups B, C ends up in exactly B and C, with no duplicate rows. -/
theorem provision_groups_spec_witness :
    (1, 7) ∈ (provision_groups cfg0
        { sa0 with attrs := [("group", .list ["B", "C"])] }
        { john with id := 7 }
        { st0 with groups := [⟨0, "A"⟩, ⟨1, "B"⟩, ⟨2, "C"⟩],
                   memberships := [(0, 7), (1, 7), (2, 7)],
                   next_user_id := 8, next_group_id := 3 }).memberships ∧
    ¬(0, 7) ∈ (provision_groups cfg0
        { sa0 with attrs := [("group", .list ["B", "C"])] }
        { john with id := 7 }
        { st0 with groups := [⟨0, "A"⟩, ⟨1, "B"⟩, ⟨2, "C"⟩],
                   memberships := [(0, 7), (1, 7), (2, 7)],
                   next_user_id := 8, next_group_id := 3 }).memberships ∧
    ((provision_groups cfg0
        { sa0 with attrs := [("group", .list ["B", "C"])] }
        { john with id := 7 }
        { st0 with groups := [⟨0, "A"⟩, ⟨1, "B"⟩, ⟨2, "C"⟩],
                   memberships := [(0, 7), (1, 7), (2, 7)],
                   next_user_id := 8, next_group_id := 3 }).memberships).Nodup := by
  have h := provision_groups_spec cfg0
    { sa0 with attrs := [("group", .list ["B", "C"])] }
    { john with id := 7 }
    { st0 with groups := [⟨0, "A"⟩, ⟨1, "B"⟩, ⟨2, "C"⟩],
               memberships := [(0, 7), (1, 7), (2, 7)],
               next_user_id := 8, next_group_id := 3 }
    (.list ["B", "C"]) (by decide) (by decide)
  refine ⟨(h.1 1).mpr (by decide), ?_, h.2.1⟩
  intro hmem
  have := (h.1 0).mp hmem
  revert this
  decide

end Mellon
